import Mathlib

/-!
# Verification of the Minesweeper AI inference engine

Shallow embedding of `src/TP02/minesweeper/minesweeper.py` (classes `Sentence`
and `MinesweeperAI`).  Cells are pairs of integers, a sentence's `count` is an
integer (Python integers are unbounded and may go negative), and the
`knowledge` list carries a numeric tag on each sentence: the tag models Python
object identity (`sentence1 is sentence2`), which the subsumption loop
distinguishes from structural equality (`Sentence.__eq__`, i.e. same cell set
and same count).  Fresh sentences get fresh tags, so list entries are pairwise
distinct objects, exactly as in the Python program where every appended
sentence is a newly constructed object.

Python's `for x in lst` iterates by an internal index over the live list, so
removals shift later elements under the iterator and appended elements are
visited; `list.remove(v)` deletes the first element structurally equal to `v`.
The loops of `add_knowledge` step 5 are embedded with exactly these semantics
(`innerLoop` / `outerLoop`), driven by a fuel parameter because the Python
loop does not terminate on every conceivable knowledge list (e.g. a sentence
with empty cells and non-zero count next to any other sentence keeps deriving
fresh counts); `none` means the loop has not returned within the given fuel.

`random.choice` over a tuple/list is embedded as indexing by `k % length`
where `k` is an arbitrary seed; a set is enumerated in lexicographic order.
-/

namespace MSW

/-- A board cell, `(row, column)`, as in the Python tuples of ints. -/
abbrev Cell := ℤ × ℤ

/-- Lexicographic order on cells, used only to enumerate a Python set as a
list (the concrete enumeration order of a Python set is unspecified; every
operation folded over it below is order-independent). -/
def cellLe (a b : Cell) : Prop :=
  a.1 < b.1 ∨ (a.1 = b.1 ∧ a.2 ≤ b.2)

instance : DecidableRel cellLe := fun a b =>
  inferInstanceAs (Decidable (a.1 < b.1 ∨ (a.1 = b.1 ∧ a.2 ≤ b.2)))

instance : IsTrans Cell cellLe :=
  ⟨fun a b c h1 h2 => by unfold cellLe at *; omega⟩

instance : IsAntisymm Cell cellLe :=
  ⟨fun a b h1 h2 => by
    unfold cellLe at *
    have : a.1 = b.1 ∧ a.2 = b.2 := by omega
    exact Prod.ext this.1 this.2⟩

instance : IsTotal Cell cellLe :=
  ⟨fun a b => by unfold cellLe; omega⟩

/-- Enumerate a multiset of cells as a sorted list (insertion sort is
structurally recursive, so this enumeration evaluates definitionally; two
lists that are permutations of one another sort to the same list). -/
def msortCells (m : Multiset Cell) : List Cell :=
  Quot.lift (List.insertionSort cellLe)
    (fun l1 l2 h =>
      List.eq_of_perm_of_sorted
        (((List.perm_insertionSort cellLe l1).trans h).trans
          (List.perm_insertionSort cellLe l2).symm)
        (List.sorted_insertionSort cellLe l1)
        (List.sorted_insertionSort cellLe l2))
    m

/-- Enumerate a finite set of cells as a sorted list. -/
def cellList (s : Finset Cell) : List Cell :=
  msortCells s.val

/-- Python class `Sentence`: a set of board cells and a count of how many of
those cells are mines.  `count` is an integer: nothing in the source keeps it
non-negative. -/
structure Sentence where
  cells : Finset Cell
  count : ℤ

/-- Equality of sentences (`Sentence.__eq__`): same cell set, same count.
The instance is built with `decidable_of_iff` so that it evaluates
definitionally even when the two (equal) cell sets carry different underlying
representatives. -/
instance : DecidableEq Sentence := fun s t =>
  decidable_of_iff (s.cells = t.cells ∧ s.count = t.count) (by cases s; cases t; simp)

instance (priority := 2000) : DecidableEq (ℕ × Sentence) := fun p q =>
  decidable_of_iff (p.1 = q.1 ∧ p.2 = q.2) Prod.ext_iff.symm

/-- List equality on tagged sentences, again built without `Eq.rec` so that
it evaluates definitionally. -/
def decEqKnowledge : (l1 l2 : List (ℕ × Sentence)) → Decidable (l1 = l2)
  | [], [] => isTrue rfl
  | [], _ :: _ => isFalse (fun h => List.noConfusion h)
  | _ :: _, [] => isFalse (fun h => List.noConfusion h)
  | p :: t, q :: u =>
    haveI := decEqKnowledge t u
    decidable_of_iff (p = q ∧ t = u) List.cons_eq_cons.symm

instance (priority := 2000) : DecidableEq (List (ℕ × Sentence)) := decEqKnowledge

/-- `Sentence.known_mines`: `if self.count == len(self.cells): return
self.cells; return None`.  Note there is no emptiness test in the source. -/
def Sentence.known_mines (s : Sentence) : Option (Finset Cell) :=
  if s.count = (s.cells.card : ℤ) then some s.cells else none

/-- `Sentence.known_safes`: `if not self.count: return self.cells; return
None` (`not count` is true exactly when `count == 0`). -/
def Sentence.known_safes (s : Sentence) : Option (Finset Cell) :=
  if s.count = 0 then some s.cells else none

/-- `Sentence.mark_mine`: if the cell is in the sentence, remove it and
decrement the count; otherwise do nothing. -/
def Sentence.mark_mine (s : Sentence) (cell : Cell) : Sentence :=
  if cell ∈ s.cells then { cells := s.cells.erase cell, count := s.count - 1 } else s

/-- `Sentence.mark_safe`: if the cell is in the sentence, remove it; the count
is unchanged. -/
def Sentence.mark_safe (s : Sentence) (cell : Cell) : Sentence :=
  if cell ∈ s.cells then { cells := s.cells.erase cell, count := s.count } else s

/-- Python class `MinesweeperAI`.  `knowledge` entries are tagged with a
unique id (Python object identity); `nextId` supplies fresh tags. -/
structure MinesweeperAI where
  height : ℕ
  width : ℕ
  moves_made : Finset Cell
  safes : Finset Cell
  mines : Finset Cell
  knowledge : List (ℕ × Sentence)
  nextId : ℕ

instance : DecidableEq MinesweeperAI := fun a b =>
  decidable_of_iff
    (a.height = b.height ∧ a.width = b.width ∧ a.moves_made = b.moves_made ∧
      a.safes = b.safes ∧ a.mines = b.mines ∧ a.knowledge = b.knowledge ∧
      a.nextId = b.nextId)
    (by cases a; cases b; simp)

instance (priority := 2000) : DecidableEq (Option MinesweeperAI) := fun o1 o2 =>
  match o1, o2 with
  | none, none => isTrue rfl
  | none, some _ => isFalse (fun h => Option.noConfusion h)
  | some _, none => isFalse (fun h => Option.noConfusion h)
  | some a, some b => decidable_of_iff (a = b) Option.some_inj.symm

/-- The freshly constructed agent: `MinesweeperAI(height, width)`. -/
def initAI (h w : ℕ) : MinesweeperAI :=
  { height := h, width := w, moves_made := ∅, safes := ∅, mines := ∅
    knowledge := [], nextId := 0 }

/-- The untagged sentences of the knowledge list. -/
def MinesweeperAI.sentences (ai : MinesweeperAI) : List Sentence :=
  ai.knowledge.map Prod.snd

/-- `MinesweeperAI.mark_mine`: add the cell to `mines` and call
`Sentence.mark_mine` on every sentence in knowledge. -/
def MinesweeperAI.mark_mine (ai : MinesweeperAI) (cell : Cell) : MinesweeperAI :=
  { ai with mines := insert cell ai.mines
            knowledge := ai.knowledge.map fun p => (p.1, p.2.mark_mine cell) }

/-- `MinesweeperAI.mark_safe`: add the cell to `safes` and call
`Sentence.mark_safe` on every sentence in knowledge. -/
def MinesweeperAI.mark_safe (ai : MinesweeperAI) (cell : Cell) : MinesweeperAI :=
  { ai with safes := insert cell ai.safes
            knowledge := ai.knowledge.map fun p => (p.1, p.2.mark_safe cell) }

/-- `for safe in safes.copy(): self.mark_safe(safe)` — mark every cell of a
snapshot set safe (set iteration order is irrelevant: the marks commute). -/
def markCellsSafe (ai : MinesweeperAI) (cs : Finset Cell) : MinesweeperAI :=
  (cellList cs).foldl MinesweeperAI.mark_safe ai

/-- `for mine in mines.copy(): self.mark_mine(mine)`. -/
def markCellsMine (ai : MinesweeperAI) (cs : Finset Cell) : MinesweeperAI :=
  (cellList cs).foldl MinesweeperAI.mark_mine ai

/-- First half of one iteration of step 4 of `add_knowledge`, for the
sentence at index `i`: query `known_safes()` (`if safes:` — `None` and the
empty set are both falsy) and mark the snapshot of its cells safe. -/
def stepFourSafes (ai : MinesweeperAI) (i : ℕ) : MinesweeperAI :=
  match ai.knowledge.get? i with
  | none => ai
  | some p =>
    match p.2.known_safes with
    | some t => if t = ∅ then ai else markCellsSafe ai t
    | none => ai

/-- Second half of one iteration of step 4: query `known_mines()` on the
sentence at index `i` — the sentence object as already mutated by the safe
marks — and mark the snapshot of its cells as mines. -/
def stepFourMines (ai : MinesweeperAI) (i : ℕ) : MinesweeperAI :=
  match ai.knowledge.get? i with
  | none => ai
  | some q =>
    match q.2.known_mines with
    | some t => if t = ∅ then ai else markCellsMine ai t
    | none => ai

/-- One iteration of step 4 of `add_knowledge` for the sentence at index `i`:
the safe marks run first, then the mine query reads the mutated sentence. -/
def stepFour (ai : MinesweeperAI) (i : ℕ) : MinesweeperAI :=
  stepFourMines (stepFourSafes ai i) i

/-- Step 4 of `add_knowledge`: one pass over the knowledge list (its length is
unchanged during the pass; the sentences themselves mutate). -/
def markingPass (ai : MinesweeperAI) : MinesweeperAI :=
  (List.range ai.knowledge.length).foldl stepFour ai

/-- The nine candidates scanned by the nested `range(cell-1, cell+2)` loops of
step 3, in source order (row-major). -/
def neighborCandidates (cell : Cell) : List Cell :=
  [ (cell.1 - 1, cell.2 - 1), (cell.1 - 1, cell.2), (cell.1 - 1, cell.2 + 1)
  , (cell.1,     cell.2 - 1), (cell.1,     cell.2), (cell.1,     cell.2 + 1)
  , (cell.1 + 1, cell.2 - 1), (cell.1 + 1, cell.2), (cell.1 + 1, cell.2 + 1) ]

/-- The body of step 3's neighbor loop: the cell itself is skipped; an
in-bounds neighbor joins the cell set if it is neither in `moves_made` nor in
`mines`; otherwise, if it is in `mines`, the count is decremented.  (Cells
already in `safes` are NOT excluded by the source.) -/
def newSentenceStep (ai : MinesweeperAI) (cell : Cell) (acc : Sentence) (c : Cell) :
    Sentence :=
  if c = cell then acc
  else if 0 ≤ c.1 ∧ c.1 < (ai.height : ℤ) ∧ 0 ≤ c.2 ∧ c.2 < (ai.width : ℤ) then
    if c ∉ ai.moves_made ∧ c ∉ ai.mines then
      { acc with cells := insert c acc.cells }
    else if c ∈ ai.mines then
      { acc with count := acc.count - 1 }
    else acc
  else acc

/-- Step 3 of `add_knowledge`: build the new sentence from the neighbor
candidates. -/
def newSentence (ai : MinesweeperAI) (cell : Cell) (count : ℤ) : Sentence :=
  (neighborCandidates cell).foldl (newSentenceStep ai cell) { cells := ∅, count := count }

/-- `self.knowledge.remove(v)`: delete the first entry whose sentence is
structurally equal to `v` (Python `list.remove` compares with `==`). -/
def removeFirst (L : List (ℕ × Sentence)) (s : Sentence) : List (ℕ × Sentence) :=
  match L with
  | [] => []
  | p :: rest => if p.2 = s then rest else p :: removeFirst rest s

/-- `new_sentence in self.knowledge`: membership by structural equality. -/
def containsSentence (L : List (ℕ × Sentence)) (s : Sentence) : Bool :=
  L.any fun p => p.2 = s

/-- The inner `for sentence2 in self.knowledge` loop of step 5, for a fixed
held object `s1`, starting at iterator index `j`.  Mirrors a Python list
iterator over the live list: test `j < len`, read `L[j]`, run the body (which
may remove an entry — shifting later entries under the iterator — or append
one), then advance to `j+1`.  `s1.1 = s2.1` is the `sentence1 is sentence2`
identity test. -/
def innerLoop : ℕ → (ℕ × Sentence) → ℕ → List (ℕ × Sentence) → ℕ →
    Option (List (ℕ × Sentence) × ℕ)
  | 0, _, _, _, _ => none
  | fuel + 1, s1, j, L, nid =>
    if h : j < L.length then
      let s2 := L.get ⟨j, h⟩
      if s1.1 = s2.1 then innerLoop fuel s1 (j + 1) L nid
      else if s1.2 = s2.2 then innerLoop fuel s1 (j + 1) (removeFirst L s2.2) nid
      else if s1.2.cells ⊆ s2.2.cells then
        let ns : Sentence :=
          { cells := s2.2.cells \ s1.2.cells, count := s2.2.count - s1.2.count }
        if containsSentence L ns then innerLoop fuel s1 (j + 1) L nid
        else innerLoop fuel s1 (j + 1) (L ++ [(nid, ns)]) (nid + 1)
      else innerLoop fuel s1 (j + 1) L nid
    else some (L, nid)

/-- The outer `for sentence1 in self.knowledge` loop of step 5: read the held
object at index `i` from the live list, run the full inner loop, advance. -/
def outerLoop : ℕ → ℕ → List (ℕ × Sentence) → ℕ → Option (List (ℕ × Sentence) × ℕ)
  | 0, _, _, _ => none
  | fuel + 1, i, L, nid =>
    if h : i < L.length then
      match innerLoop fuel (L.get ⟨i, h⟩) 0 L nid with
      | none => none
      | some (L', nid') => outerLoop fuel (i + 1) L' nid'
    else some (L, nid)

/-- Steps 1–3 of `add_knowledge`: add the cell to `moves_made`, mark it safe
(propagating into every sentence), and append the new sentence built from the
cell's neighbors, tagged with a fresh id. -/
def observeSentence (ai : MinesweeperAI) (cell : Cell) (count : ℤ) : MinesweeperAI :=
  let ai1 := { ai with moves_made := insert cell ai.moves_made }
  let ai2 := ai1.mark_safe cell
  { ai2 with knowledge := ai2.knowledge ++ [(ai2.nextId, newSentence ai2 cell count)]
             nextId := ai2.nextId + 1 }

/-- `MinesweeperAI.add_knowledge`: (1) add the cell to `moves_made`; (2) mark
it safe; (3) append the new sentence built from the cell's neighbors; (4) one
marking pass over knowledge; (5) one subsumption/duplicate sweep over the
(mutating) knowledge list.  There is no repetition of steps 4–5 in the
source.  `none` means the step-5 loop did not finish within `fuel`. -/
def MinesweeperAI.add_knowledge (ai : MinesweeperAI) (cell : Cell) (count : ℤ)
    (fuel : ℕ) : Option MinesweeperAI :=
  let ai4 := markingPass (observeSentence ai cell count)
  match outerLoop fuel 0 ai4.knowledge ai4.nextId with
  | none => none
  | some (L, nid) => some { ai4 with knowledge := L, nextId := nid }

/-- `random.choice` over a list, with an arbitrary seed `k`. -/
def randomChoice (l : List Cell) (k : ℕ) : Cell :=
  l.getD (k % l.length) (0, 0)

/-- `MinesweeperAI.make_safe_move`: an element of `safes - moves_made` if that
set is non-empty, else `None`.  The method mutates nothing, so the embedding
returns the unchanged agent alongside the value. -/
def MinesweeperAI.make_safe_move (ai : MinesweeperAI) (k : ℕ) :
    Option Cell × MinesweeperAI :=
  let available_moves := ai.safes \ ai.moves_made
  if available_moves = ∅ then (none, ai)
  else (some (randomChoice (cellList available_moves) k), ai)

/-- The grid cells `(i, j)` for `i in range(height)`, `j in range(width)`, in
source order. -/
def gridCells (h w : ℕ) : List Cell :=
  (List.range h).flatMap fun (i : ℕ) =>
    (List.range w).map fun (j : ℕ) => ((i : ℤ), (j : ℤ))

/-- The grid as a finite set. -/
def gridFinset (h w : ℕ) : Finset Cell :=
  (Finset.range h ×ˢ Finset.range w).image fun p => ((p.1 : ℤ), (p.2 : ℤ))

/-- `MinesweeperAI.make_random_move`: `None` if
`len(mines) + len(moves_made) == height * width`; otherwise a random element
of the grid cells not in `moves_made` and not in `mines`, or `None` if there
are none.  Mutates nothing. -/
def MinesweeperAI.make_random_move (ai : MinesweeperAI) (k : ℕ) :
    Option Cell × MinesweeperAI :=
  if ai.mines.card + ai.moves_made.card = ai.height * ai.width then (none, ai)
  else
    let possible_moves := (gridCells ai.height ai.width).filter
      fun c => c ∉ ai.moves_made ∧ c ∉ ai.mines
    (if possible_moves = [] then none else some (randomChoice possible_moves k), ai)

/-- The part of the documented agent invariant that the code maintains: every
made move is known safe, and no sentence mentions a known mine. -/
def coreInv (ai : MinesweeperAI) : Prop :=
  ai.moves_made ⊆ ai.safes ∧ ∀ p ∈ ai.knowledge, ∀ c ∈ p.2.cells, c ∉ ai.mines

instance (ai : MinesweeperAI) : Decidable (coreInv ai) :=
  inferInstanceAs (Decidable
    (ai.moves_made ⊆ ai.safes ∧ ∀ p ∈ ai.knowledge, ∀ c ∈ p.2.cells, c ∉ ai.mines))

/-- Multiplicity of a sentence (by structural equality) in a knowledge list. -/
def countSentence (L : List (ℕ × Sentence)) (s : Sentence) : ℕ :=
  (L.filter fun p => decide (p.2 = s)).length

/-- A mid-game 3×3 agent whose knowledge holds `{(0,0),(1,0),(2,0)} = 1` and
`{(0,0),(1,0)} = 1` (the spec's subsumption scenario with
`A = (0,0)`, `B = (1,0)`, `C = (2,0)`). -/
def exC1 : MinesweeperAI :=
  { height := 3, width := 3, moves_made := ∅, safes := ∅, mines := ∅
    knowledge := [(0, ⟨{(0,0),(1,0),(2,0)}, 1⟩), (1, ⟨{(0,0),(1,0)}, 1⟩)]
    nextId := 2 }

/-- A mid-game 3×3 agent whose knowledge holds `{(0,0),(0,1),(0,2)} = 1` and
`{(0,0),(0,1)} = 1` (the spec's subsumption scenario with `A = (0,0)`,
`B = (0,1)`, `C = (0,2)`). -/
def exC2 : MinesweeperAI :=
  { height := 3, width := 3, moves_made := ∅, safes := ∅, mines := ∅
    knowledge := [(0, ⟨{(0,0),(0,1),(0,2)}, 1⟩), (1, ⟨{(0,0),(0,1)}, 1⟩)]
    nextId := 2 }

/-- The agent `exC2` after observing `((2,0), 0)`. -/
def exC2one : Option MinesweeperAI := exC2.add_knowledge (2, 0) 0 100

/-- The agent `exC2` after observing `((2,0), 0)` and then `((2,1), 0)`. -/
def exC2two : Option MinesweeperAI :=
  exC2one.bind fun a => a.add_knowledge (2, 1) 0 100

/-- A fresh 3×3 agent after observing `((0,0), 0)` and `((2,2), 1)`. -/
def exC5two : Option MinesweeperAI :=
  ((initAI 3 3).add_knowledge (0, 0) 0 100).bind fun a =>
    a.add_knowledge (2, 2) 1 100

/-- The run `exC5two` continued with observations `((1,2), 1)` and
`((2,1), 1)`. -/
def exC5four : Option MinesweeperAI :=
  (exC5two.bind fun a => a.add_knowledge (1, 2) 1 100).bind fun a =>
    a.add_knowledge (2, 1) 1 100

/-- A 6×8 agent whose knowledge list is duplicate-free but collapses, under
the marking pass of the next observation, into several pairs of equal
sentences laid out so that the subsumption sweep's remove-while-iterating
skips leave one pair in place.  The `(4,_)` cells are resolved safe by the
sentence with count 0; the `(5,_)` pair sentences are untouched bystanders. -/
def exC6 : MinesweeperAI :=
  { height := 6, width := 8
    moves_made := {(1,0),(1,1),(1,2)}, safes := {(1,0),(1,1),(1,2)}, mines := ∅
    knowledge :=
      [ (0, ⟨{(4,0),(5,0),(5,1)}, 1⟩)
      , (1, ⟨{(4,1),(5,0),(5,1)}, 1⟩)
      , (2, ⟨{(4,2),(5,2),(5,3)}, 1⟩)
      , (3, ⟨{(4,3),(5,2),(5,3)}, 1⟩)
      , (4, ⟨{(5,4),(5,5)}, 1⟩)
      , (5, ⟨{(4,4),(0,0),(0,2)}, 1⟩)
      , (6, ⟨{(0,0),(0,2)}, 1⟩)
      , (7, ⟨{(4,5),(5,6),(5,7)}, 1⟩)
      , (8, ⟨{(5,6),(5,7)}, 1⟩)
      , (9, ⟨{(5,0),(5,1)}, 1⟩)
      , (10, ⟨{(5,2),(5,3)}, 1⟩)
      , (11, ⟨{(4,0),(4,1),(4,2),(4,3),(4,4),(4,5)}, 0⟩) ]
    nextId := 12 }

/-- The agent `exC6` after observing `((0,1), 1)`. -/
def exC6one : Option MinesweeperAI := exC6.add_knowledge (0, 1) 1 200

/-- An 8×8 agent holding the (mutually inconsistent, but accepted) sentences
`{(5,0),(5,1),(5,2)} = 2` and `{(5,0),(5,1),(5,2),(5,3)} = 1`. -/
def exC10 : MinesweeperAI :=
  { height := 8, width := 8, moves_made := ∅, safes := ∅, mines := ∅
    knowledge := [ (0, ⟨{(5,0),(5,1),(5,2)}, 2⟩)
                 , (1, ⟨{(5,0),(5,1),(5,2),(5,3)}, 1⟩) ]
    nextId := 2 }

/-- The agent `exC10` after observing `((0,0), 0)`. -/
def exC10one : Option MinesweeperAI := exC10.add_knowledge (0, 0) 0 100

/-- The agent inside an optional result (defaulting to a trivial agent);
used to name the concrete outcome of a run when exhibiting it as a witness. -/
def resultOf (o : Option MinesweeperAI) : MinesweeperAI :=
  o.getD (initAI 0 0)

/-! ## Enumeration lemmas -/

theorem mem_msortCells {m : Multiset Cell} {c : Cell} : c ∈ msortCells m ↔ c ∈ m := by
  induction m using Quotient.inductionOn with
  | h l => exact List.mem_insertionSort cellLe

theorem mem_cellList {s : Finset Cell} {c : Cell} : c ∈ cellList s ↔ c ∈ s :=
  mem_msortCells

/-! ## Sentence-level properties -/

theorem Sentence.mark_mine_idem (s : Sentence) (c : Cell) :
    (s.mark_mine c).mark_mine c = s.mark_mine c := by
  by_cases h : c ∈ s.cells
  · simp [Sentence.mark_mine, h, Finset.not_mem_erase]
  · simp [Sentence.mark_mine, h]

theorem Sentence.mark_safe_idem (s : Sentence) (c : Cell) :
    (s.mark_safe c).mark_safe c = s.mark_safe c := by
  by_cases h : c ∈ s.cells
  · simp [Sentence.mark_safe, h, Finset.not_mem_erase]
  · simp [Sentence.mark_safe, h]

/-- C3 counterexample: on the empty sentence with count 0, `known_mines()`
returns the cell set (the empty set), not the no-conclusion result `None`,
because the source compares `count == len(cells)` with no emptiness test. -/
theorem known_mines_empty_cells_not_none :
    (Sentence.mk ∅ 0).known_mines = some ∅ ∧ (Sentence.mk ∅ 0).known_mines ≠ none := by
  decide

/-- C3 (amended): `known_mines()` returns exactly `cells` whenever
`count = |cells|` — including the degenerate empty sentence, for which the
returned empty set is treated as "no conclusion" by every call site via
falsiness — and returns `None` exactly when `count ≠ |cells|`. -/
theorem known_mines_spec (s : Sentence) :
    (s.count = (s.cells.card : ℤ) → s.known_mines = some s.cells) ∧
    (s.count ≠ (s.cells.card : ℤ) → s.known_mines = none) := by
  constructor <;> intro h <;> simp [Sentence.known_mines, h]

/-- Witness for `known_mines_spec` at the sentences `{(0,0)} = 1` and
`{(0,0)} = 2`. -/
theorem known_mines_spec_witness :
    (Sentence.mk {(0,0)} 1).known_mines = some {(0,0)} ∧
    (Sentence.mk {(0,0)} 2).known_mines = none :=
  ⟨(known_mines_spec (Sentence.mk {(0,0)} 1)).1 (by decide),
   (known_mines_spec (Sentence.mk {(0,0)} 2)).2 (by decide)⟩

/-- C4 counterexample: the sentence `{(0,0)} = 1` satisfies
`0 ≤ count ≤ |cells|`, yet `mark_safe((0,0))` leaves it with
`count = 1 > 0 = |cells|`: the mutation rules do not preserve the invariant. -/
theorem mark_safe_breaks_count_bound :
    0 ≤ (Sentence.mk {(0,0)} 1).count ∧
    (Sentence.mk {(0,0)} 1).count ≤ ((Sentence.mk {(0,0)} 1).cells.card : ℤ) ∧
    (((Sentence.mk {(0,0)} 1).mark_safe (0,0)).cells.card : ℤ) <
      ((Sentence.mk {(0,0)} 1).mark_safe (0,0)).count := by
  decide

/-- C4 (amended): `mark_mine` and `mark_safe` never increase `|cells|`;
`mark_mine` preserves the upper bound `count ≤ |cells|` and `mark_safe`
preserves the lower bound `0 ≤ count`; but neither preserves the full
invariant `0 ≤ count ≤ |cells|` (`mark_safe` can push `count` above `|cells|`
— see `mark_safe_breaks_count_bound` — and `mark_mine` can push it below 0). -/
theorem mark_ops_bounds (s : Sentence) (c : Cell) :
    (s.mark_mine c).cells.card ≤ s.cells.card ∧
    (s.mark_safe c).cells.card ≤ s.cells.card ∧
    (s.count ≤ (s.cells.card : ℤ) →
      (s.mark_mine c).count ≤ ((s.mark_mine c).cells.card : ℤ)) ∧
    (0 ≤ s.count → 0 ≤ (s.mark_safe c).count) := by
  by_cases h : c ∈ s.cells
  · have hcard : (s.cells.erase c).card = s.cells.card - 1 :=
      Finset.card_erase_of_mem h
    have hpos : 0 < s.cells.card := Finset.card_pos.mpr ⟨c, h⟩
    refine ⟨?_, ?_, ?_, ?_⟩ <;>
      simp only [Sentence.mark_mine, Sentence.mark_safe, if_pos h, hcard] <;>
      omega
  · refine ⟨?_, ?_, ?_, ?_⟩ <;>
      simp only [Sentence.mark_mine, Sentence.mark_safe, if_neg h] <;>
      omega

/-- Witness for `mark_ops_bounds` at the sentence `{(0,0)} = 1`. -/
theorem mark_ops_bounds_witness :
    ((Sentence.mk {(0,0)} 1).mark_mine (0,0)).count ≤
      (((Sentence.mk {(0,0)} 1).mark_mine (0,0)).cells.card : ℤ) ∧
    0 ≤ ((Sentence.mk {(0,0)} 1).mark_safe (0,0)).count :=
  ⟨(mark_ops_bounds (Sentence.mk {(0,0)} 1) (0,0)).2.2.1 (by decide),
   (mark_ops_bounds (Sentence.mk {(0,0)} 1) (0,0)).2.2.2 (by decide)⟩

/-! ## Agent-level mark operations -/

/-- C7: agent-level `mark_mine` and `mark_safe` are idempotent: a second call
on the same cell changes nothing — `mines`/`safes` are sets, and a sentence
that has already lost the cell is left untouched by `Sentence.mark_mine` /
`Sentence.mark_safe`. -/
theorem agent_mark_idempotent (ai : MinesweeperAI) (c : Cell) :
    (ai.mark_mine c).mark_mine c = ai.mark_mine c ∧
    (ai.mark_safe c).mark_safe c = ai.mark_safe c := by
  constructor <;>
    simp [MinesweeperAI.mark_mine, MinesweeperAI.mark_safe,
          Sentence.mark_mine_idem, Sentence.mark_safe_idem]

/-! ## Behaviour of a single add_knowledge call -/

/-- C1 counterexample: starting from `exC1` (knowledge `{A,B,C} = 1`,
`{A,B} = 1`), the call `add_knowledge((0,2), 0)` returns a state containing
the derived sentence `{(2,0)} = 0`, whose `known_safes()` is the non-empty
set `{(2,0)}` with `(2,0)` not in `safes`: the state after `add_knowledge`
is not a fixed point of the closure-plus-subsumption rules. -/
theorem add_knowledge_result_not_closed :
    ∃ a', exC1.add_knowledge (0, 2) 0 100 = some a' ∧
      ∃ p ∈ a'.knowledge, p.2.known_safes = some p.2.cells ∧
        ∃ c ∈ p.2.cells, c ∉ a'.safes := by
  refine ⟨resultOf (exC1.add_knowledge (0, 2) 0 100), by decide,
    (3, Sentence.mk {(2,0)} 0), by decide, by decide, (2,0), by decide, by decide⟩

/-- C1 (amended): within a single `add_knowledge` call the closure (marking)
pass and the subsumption pass each run exactly once, in that order, with no
repetition until a fixed point; consequently the state after `add_knowledge`
returns need not be a fixed point — there are runs whose final knowledge
holds a sentence with `known_safes()` yielding a non-empty set of unmarked
cells. -/
theorem add_knowledge_single_sweep_not_fixed_point :
    ∃ (ai : MinesweeperAI) (cell : Cell) (count : ℤ) (fuel : ℕ) (a' : MinesweeperAI),
      ai.add_knowledge cell count fuel = some a' ∧
      ∃ p ∈ a'.knowledge, p.2.known_safes = some p.2.cells ∧
        ∃ c ∈ p.2.cells, c ∉ a'.safes := by
  refine ⟨exC1, (0, 2), 0, 100, resultOf (exC1.add_knowledge (0, 2) 0 100), by decide,
    (3, Sentence.mk {(2,0)} 0), by decide, by decide, (2,0), by decide, by decide⟩

/-- C2 counterexample: `exC2` holds `{A,B,C} = 1` and `{A,B} = 1` with
`A = (0,0)`, `B = (0,1)`, `C = (0,2)`; the single `add_knowledge` call
derives `{C} = 0` into knowledge but does NOT place `C` into `safes` —
the marking pass ran before the subsumption pass and is not re-run. -/
theorem derived_safe_not_marked_same_call :
    ∃ a', exC2one = some a' ∧
      Sentence.mk {(0,2)} 0 ∈ a'.sentences ∧ (0,2) ∉ a'.safes := by
  refine ⟨resultOf exC2one, by decide, by decide, by decide⟩

/-- C2 (amended): with `{A,B,C} = 1` and `{A,B} = 1` in knowledge, the
`add_knowledge` call derives `{C} = 0` and appends it to knowledge, but `C`
enters `safes` only when the NEXT `add_knowledge` call's marking pass
processes the derived sentence. -/
theorem derived_safe_marked_next_call :
    ∃ a₁, exC2one = some a₁ ∧
      Sentence.mk {(0,2)} 0 ∈ a₁.sentences ∧ (0,2) ∉ a₁.safes ∧
      ∃ a₂, exC2two = some a₂ ∧ (0,2) ∈ a₂.safes := by
  refine ⟨resultOf exC2one, by decide, by decide, by decide,
    resultOf exC2two, by decide, by decide⟩

/-- C5 counterexample: from a fresh 3×3 agent, the observation sequence
`((0,0),0), ((2,2),1)` ends with a sentence that contains the known-safe
cell `(1,1)` (step 3 excludes only `moves_made` and `mines`, not `safes`);
continuing with `((1,2),1), ((2,1),1)` even makes `safes` and `mines`
intersect at `(1,1)`. -/
theorem agent_invariant_violations_reachable :
    (∃ a, exC5two = some a ∧ ∃ p ∈ a.knowledge, ∃ c ∈ p.2.cells, c ∈ a.safes) ∧
    (∃ b, exC5four = some b ∧ (1,1) ∈ b.safes ∧ (1,1) ∈ b.mines) := by
  constructor
  · refine ⟨resultOf exC5two, by decide,
      (1, Sentence.mk {(1,1),(1,2),(2,1)} 1), by decide, (1,1), by decide, by decide⟩
  · refine ⟨resultOf exC5four, by decide, by decide, by decide⟩

/-- C6 counterexample: the knowledge list of `exC6` is duplicate-free, yet
after one `add_knowledge` call the returned knowledge holds two equal
sentences — the marking pass collapses several sentences into equal pairs
and the single subsumption sweep, removing from the list it is iterating
over, skips one surviving pair. -/
theorem duplicate_sentences_survive :
    exC6.sentences.Nodup ∧
    ∃ a', exC6one = some a' ∧ ¬ a'.sentences.Nodup := by
  refine ⟨by decide, resultOf exC6one, by decide, by decide⟩

/-! ## Preservation of the core agent invariant (C5, amended) -/

theorem foldl_preserves {α β : Type} (P : β → Prop) (f : β → α → β)
    (hf : ∀ b a, P b → P (f b a)) :
    ∀ (l : List α) (b : β), P b → P (l.foldl f b) := by
  intro l
  induction l with
  | nil => intro b hb; exact hb
  | cons x xs ih => intro b hb; exact ih _ (hf _ _ hb)

theorem Sentence.mark_safe_cells_subset (s : Sentence) (c : Cell) :
    (s.mark_safe c).cells ⊆ s.cells := by
  unfold Sentence.mark_safe
  split
  · exact Finset.erase_subset _ _
  · exact Finset.Subset.refl _

theorem Sentence.mark_mine_cells_subset (s : Sentence) (c : Cell) :
    (s.mark_mine c).cells ⊆ s.cells := by
  unfold Sentence.mark_mine
  split
  · exact Finset.erase_subset _ _
  · exact Finset.Subset.refl _

theorem Sentence.mark_mine_not_mem (s : Sentence) (c : Cell) :
    c ∉ (s.mark_mine c).cells := by
  unfold Sentence.mark_mine
  split
  · exact Finset.not_mem_erase _ _
  · assumption

theorem mark_safe_coreInv {ai : MinesweeperAI} (c : Cell) (h : coreInv ai) :
    coreInv (ai.mark_safe c) := by
  obtain ⟨hms, hk⟩ := h
  refine ⟨hms.trans (Finset.subset_insert _ _), ?_⟩
  intro p hp x hx
  simp only [MinesweeperAI.mark_safe, List.mem_map] at hp
  obtain ⟨q, hq, rfl⟩ := hp
  exact hk q hq x (Sentence.mark_safe_cells_subset _ _ hx)

theorem mark_mine_coreInv {ai : MinesweeperAI} (c : Cell) (h : coreInv ai) :
    coreInv (ai.mark_mine c) := by
  obtain ⟨hms, hk⟩ := h
  refine ⟨hms, ?_⟩
  intro p hp x hx
  simp only [MinesweeperAI.mark_mine, List.mem_map] at hp
  obtain ⟨q, hq, rfl⟩ := hp
  have hxq : x ∈ q.2.cells := Sentence.mark_mine_cells_subset _ _ hx
  have hxc : x ≠ c := fun he => Sentence.mark_mine_not_mem q.2 c (he ▸ hx)
  simp only [MinesweeperAI.mark_mine, Finset.mem_insert]
  exact fun hor => hor.elim hxc (hk q hq x hxq)

theorem markCellsSafe_coreInv {ai : MinesweeperAI} (cs : Finset Cell)
    (h : coreInv ai) : coreInv (markCellsSafe ai cs) :=
  foldl_preserves coreInv MinesweeperAI.mark_safe
    (fun _ c hb => mark_safe_coreInv c hb) _ _ h

theorem markCellsMine_coreInv {ai : MinesweeperAI} (cs : Finset Cell)
    (h : coreInv ai) : coreInv (markCellsMine ai cs) :=
  foldl_preserves coreInv MinesweeperAI.mark_mine
    (fun _ c hb => mark_mine_coreInv c hb) _ _ h

theorem stepFourSafes_coreInv {ai : MinesweeperAI} (i : ℕ) (h : coreInv ai) :
    coreInv (stepFourSafes ai i) := by
  unfold stepFourSafes
  split
  · exact h
  · split
    · split
      · exact h
      · exact markCellsSafe_coreInv _ h
    · exact h

theorem stepFourMines_coreInv {ai : MinesweeperAI} (i : ℕ) (h : coreInv ai) :
    coreInv (stepFourMines ai i) := by
  unfold stepFourMines
  split
  · exact h
  · split
    · split
      · exact h
      · exact markCellsMine_coreInv _ h
    · exact h

theorem stepFour_coreInv {ai : MinesweeperAI} (i : ℕ) (h : coreInv ai) :
    coreInv (stepFour ai i) :=
  stepFourMines_coreInv i (stepFourSafes_coreInv i h)

theorem markingPass_coreInv {ai : MinesweeperAI} (h : coreInv ai) :
    coreInv (markingPass ai) :=
  foldl_preserves coreInv stepFour (fun _ i hb => stepFour_coreInv i hb) _ _ h

/-- The sentence built in step 3 contains no cell of `moves_made` and no cell
of `mines` (it CAN contain cells of `safes`). -/
theorem newSentence_cells (ai : MinesweeperAI) (cell : Cell) (count : ℤ) :
    ∀ c ∈ (newSentence ai cell count).cells, c ∉ ai.moves_made ∧ c ∉ ai.mines := by
  unfold newSentence
  refine foldl_preserves
    (fun acc : Sentence => ∀ c ∈ acc.cells, c ∉ ai.moves_made ∧ c ∉ ai.mines)
    (newSentenceStep ai cell) ?_ _ _ (by simp)
  intro acc c hacc x hx
  unfold newSentenceStep at hx
  split at hx
  · exact hacc x hx
  · split at hx
    · split at hx
      · simp only [Finset.mem_insert] at hx
        rcases hx with rfl | hx
        · assumption
        · exact hacc x hx
      · split at hx
        · exact hacc x hx
        · exact hacc x hx
    · exact hacc x hx

theorem observeSentence_coreInv {ai : MinesweeperAI} (cell : Cell) (count : ℤ)
    (h : coreInv ai) : coreInv (observeSentence ai cell count) := by
  have h2 : coreInv (({ ai with moves_made := insert cell ai.moves_made }).mark_safe cell) := by
    have hbase : ({ ai with moves_made := insert cell ai.moves_made }).mark_safe cell =
        { ai.mark_safe cell with moves_made := insert cell ai.moves_made } := rfl
    rw [hbase]
    obtain ⟨hms, hk⟩ := @mark_safe_coreInv ai cell h
    exact ⟨Finset.insert_subset_insert _ h.1, hk⟩
  obtain ⟨hms, hk⟩ := h2
  refine ⟨hms, ?_⟩
  intro p hp x hx
  simp only [observeSentence, List.mem_append, List.mem_singleton] at hp
  rcases hp with hp | rfl
  · exact hk p hp x hx
  · exact (newSentence_cells _ cell count x hx).2

theorem removeFirst_subset {L : List (ℕ × Sentence)} {s : Sentence} :
    ∀ p ∈ removeFirst L s, p ∈ L := by
  induction L with
  | nil =>
    intro p hp
    rw [show removeFirst [] s = [] from rfl] at hp
    cases hp
  | cons q rest ih =>
    intro p hp
    unfold removeFirst at hp
    split at hp
    · exact List.mem_cons_of_mem _ hp
    · rcases List.mem_cons.mp hp with rfl | hp
      · exact List.mem_cons_self _ _
      · exact List.mem_cons_of_mem _ (ih p hp)

theorem innerLoop_cells_disjoint (M : Finset Cell) :
    ∀ (fuel : ℕ) (s1 : ℕ × Sentence) (j : ℕ) (L : List (ℕ × Sentence)) (nid : ℕ)
      (L' : List (ℕ × Sentence)) (nid' : ℕ),
      innerLoop fuel s1 j L nid = some (L', nid') →
      (∀ p ∈ L, ∀ c ∈ p.2.cells, c ∉ M) →
      ∀ p ∈ L', ∀ c ∈ p.2.cells, c ∉ M := by
  intro fuel
  induction fuel with
  | zero =>
    intro s1 j L nid L' nid' heq
    simp [innerLoop] at heq
  | succ n ih =>
    intro s1 j L nid L' nid' heq hL
    rw [innerLoop] at heq
    by_cases hj : j < L.length
    · rw [dif_pos hj] at heq
      simp only at heq
      by_cases hid : s1.1 = (L.get ⟨j, hj⟩).1
      · rw [if_pos hid] at heq
        exact ih _ _ _ _ _ _ heq hL
      · rw [if_neg hid] at heq
        by_cases heqs : s1.2 = (L.get ⟨j, hj⟩).2
        · rw [if_pos heqs] at heq
          exact ih _ _ _ _ _ _ heq (fun p hp => hL p (removeFirst_subset p hp))
        · rw [if_neg heqs] at heq
          by_cases hsub : s1.2.cells ⊆ (L.get ⟨j, hj⟩).2.cells
          · rw [if_pos hsub] at heq
            by_cases hc : containsSentence L
                { cells := (L.get ⟨j, hj⟩).2.cells \ s1.2.cells
                  count := (L.get ⟨j, hj⟩).2.count - s1.2.count } = true
            · rw [if_pos hc] at heq
              exact ih _ _ _ _ _ _ heq hL
            · rw [if_neg hc] at heq
              refine ih _ _ _ _ _ _ heq ?_
              intro p hp x hx
              rcases List.mem_append.mp hp with hp | hp
              · exact hL p hp x hx
              · rcases List.mem_singleton.mp hp with rfl
                simp only [Finset.mem_sdiff] at hx
                exact hL _ (L.get_mem _ _) x hx.1
          · rw [if_neg hsub] at heq
            exact ih _ _ _ _ _ _ heq hL
    · rw [dif_neg hj] at heq
      cases heq
      exact hL

theorem outerLoop_cells_disjoint (M : Finset Cell) :
    ∀ (fuel : ℕ) (i : ℕ) (L : List (ℕ × Sentence)) (nid : ℕ)
      (L' : List (ℕ × Sentence)) (nid' : ℕ),
      outerLoop fuel i L nid = some (L', nid') →
      (∀ p ∈ L, ∀ c ∈ p.2.cells, c ∉ M) →
      ∀ p ∈ L', ∀ c ∈ p.2.cells, c ∉ M := by
  intro fuel
  induction fuel with
  | zero =>
    intro i L nid L' nid' heq
    simp [outerLoop] at heq
  | succ n ih =>
    intro i L nid L' nid' heq hL
    rw [outerLoop] at heq
    by_cases hi : i < L.length
    · rw [dif_pos hi] at heq
      cases hinner : innerLoop n (L.get ⟨i, hi⟩) 0 L nid with
      | none => rw [hinner] at heq; cases heq
      | some r =>
        rw [hinner] at heq
        exact ih _ _ _ _ _ heq
          (innerLoop_cells_disjoint M n _ _ _ _ _ _ hinner hL)
    · rw [dif_neg hi] at heq
      cases heq
      exact hL

theorem add_knowledge_coreInv {ai : MinesweeperAI} {cell : Cell} {count : ℤ}
    {fuel : ℕ} {a' : MinesweeperAI} (h : coreInv ai)
    (heq : ai.add_knowledge cell count fuel = some a') : coreInv a' := by
  have h4 : coreInv (markingPass (observeSentence ai cell count)) :=
    markingPass_coreInv (observeSentence_coreInv cell count h)
  unfold MinesweeperAI.add_knowledge at heq
  simp only at heq
  cases hout : outerLoop fuel 0 (markingPass (observeSentence ai cell count)).knowledge
      (markingPass (observeSentence ai cell count)).nextId with
  | none => rw [hout] at heq; cases heq
  | some r =>
    rw [hout] at heq
    cases heq
    exact ⟨h4.1, outerLoop_cells_disjoint _ _ _ _ _ _ _ hout h4.2⟩

/-- C5 (amended): the operations preserve the part of the documented
invariant that the code actually maintains — every made move is known safe
and no sentence mentions a known mine — and the sentence built in step 3
excludes `moves_made` and `mines` (but not `safes`). -/
theorem agent_ops_preserve_core_invariant (ai : MinesweeperAI) (c cell : Cell)
    (count : ℤ) (fuel : ℕ) :
    (∀ x ∈ (newSentence ai cell count).cells, x ∉ ai.moves_made ∧ x ∉ ai.mines) ∧
    (coreInv ai →
      coreInv (ai.mark_safe c) ∧ coreInv (ai.mark_mine c) ∧
      ∀ a', ai.add_knowledge cell count fuel = some a' → coreInv a') :=
  ⟨newSentence_cells ai cell count,
   fun h => ⟨mark_safe_coreInv c h, mark_mine_coreInv c h,
     fun _ heq => add_knowledge_coreInv h heq⟩⟩

/-- Witness for `agent_ops_preserve_core_invariant` on a fresh 2×2 agent. -/
theorem agent_ops_preserve_core_invariant_witness :
    coreInv ((initAI 2 2).mark_safe (0,0)) ∧
    coreInv (resultOf ((initAI 2 2).add_knowledge (1,1) 0 50)) :=
  ⟨((agent_ops_preserve_core_invariant (initAI 2 2) (0,0) (1,1) 0 50).2 (by decide)).1,
   ((agent_ops_preserve_core_invariant (initAI 2 2) (0,0) (1,1) 0 50).2
      (by decide)).2.2 _ (by decide)⟩

/-! ## Multiplicity bound for the subsumption sweep (C6, amended) -/

theorem countSentence_nil (s : Sentence) : countSentence [] s = 0 := rfl

theorem countSentence_cons (p : ℕ × Sentence) (L : List (ℕ × Sentence)) (s : Sentence) :
    countSentence (p :: L) s = (if p.2 = s then 1 else 0) + countSentence L s := by
  unfold countSentence
  rcases Decidable.em (p.2 = s) with h | h <;>
    simp [List.filter_cons, h, Nat.add_comm]

theorem countSentence_append (L1 L2 : List (ℕ × Sentence)) (s : Sentence) :
    countSentence (L1 ++ L2) s = countSentence L1 s + countSentence L2 s := by
  unfold countSentence
  rw [List.filter_append, List.length_append]

theorem countSentence_removeFirst (L : List (ℕ × Sentence)) (t s : Sentence) :
    countSentence (removeFirst L t) s ≤ countSentence L s := by
  induction L with
  | nil => exact Nat.le_refl _
  | cons p rest ih =>
    rw [show removeFirst (p :: rest) t =
          if p.2 = t then rest else p :: removeFirst rest t from rfl]
    by_cases h : p.2 = t
    · rw [if_pos h, countSentence_cons]
      exact Nat.le_add_left _ _
    · rw [if_neg h, countSentence_cons, countSentence_cons]
      exact Nat.add_le_add_left ih _

theorem countSentence_eq_zero_of_not_contains {L : List (ℕ × Sentence)} {s : Sentence}
    (h : ¬ containsSentence L s = true) : countSentence L s = 0 := by
  unfold containsSentence at h
  simp only [List.any_eq_true, not_exists, not_and, decide_eq_true_eq] at h
  unfold countSentence
  rw [List.length_eq_zero, List.filter_eq_nil]
  intro p hp
  simp only [decide_eq_true_eq]
  exact fun he => (h p hp) he

theorem innerLoop_count (s : Sentence) :
    ∀ (fuel : ℕ) (s1 : ℕ × Sentence) (j : ℕ) (L : List (ℕ × Sentence)) (nid : ℕ)
      (L' : List (ℕ × Sentence)) (nid' : ℕ),
      innerLoop fuel s1 j L nid = some (L', nid') →
      countSentence L' s ≤ max (countSentence L s) 1 := by
  intro fuel
  induction fuel with
  | zero =>
    intro s1 j L nid L' nid' heq
    simp [innerLoop] at heq
  | succ n ih =>
    intro s1 j L nid L' nid' heq
    rw [innerLoop] at heq
    by_cases hj : j < L.length
    · rw [dif_pos hj] at heq
      simp only at heq
      by_cases hid : s1.1 = (L.get ⟨j, hj⟩).1
      · rw [if_pos hid] at heq
        exact ih _ _ _ _ _ _ heq
      · rw [if_neg hid] at heq
        by_cases heqs : s1.2 = (L.get ⟨j, hj⟩).2
        · rw [if_pos heqs] at heq
          exact le_trans (ih _ _ _ _ _ _ heq)
            (max_le_max (countSentence_removeFirst _ _ _) (Nat.le_refl 1))
        · rw [if_neg heqs] at heq
          by_cases hsub : s1.2.cells ⊆ (L.get ⟨j, hj⟩).2.cells
          · rw [if_pos hsub] at heq
            by_cases hc : containsSentence L
                { cells := (L.get ⟨j, hj⟩).2.cells \ s1.2.cells
                  count := (L.get ⟨j, hj⟩).2.count - s1.2.count } = true
            · rw [if_pos hc] at heq
              exact ih _ _ _ _ _ _ heq
            · rw [if_neg hc] at heq
              refine le_trans (ih _ _ _ _ _ _ heq) ?_
              rw [countSentence_append, countSentence_cons]
              by_cases hs :
                  (Sentence.mk ((L.get ⟨j, hj⟩).2.cells \ s1.2.cells)
                    ((L.get ⟨j, hj⟩).2.count - s1.2.count)) = s
              · have hzero := countSentence_eq_zero_of_not_contains hc
                rw [hs] at hzero
                rw [if_pos hs, hzero]
                simp only [countSentence_nil]
                omega
              · rw [if_neg hs]
                simp only [countSentence_nil]
                omega
          · rw [if_neg hsub] at heq
            exact ih _ _ _ _ _ _ heq
    · rw [dif_neg hj] at heq
      cases heq
      exact le_max_left _ _

theorem outerLoop_count (s : Sentence) :
    ∀ (fuel : ℕ) (i : ℕ) (L : List (ℕ × Sentence)) (nid : ℕ)
      (L' : List (ℕ × Sentence)) (nid' : ℕ),
      outerLoop fuel i L nid = some (L', nid') →
      countSentence L' s ≤ max (countSentence L s) 1 := by
  intro fuel
  induction fuel with
  | zero =>
    intro i L nid L' nid' heq
    simp [outerLoop] at heq
  | succ n ih =>
    intro i L nid L' nid' heq
    rw [outerLoop] at heq
    by_cases hi : i < L.length
    · rw [dif_pos hi] at heq
      cases hinner : innerLoop n (L.get ⟨i, hi⟩) 0 L nid with
      | none => rw [hinner] at heq; cases heq
      | some r =>
        rw [hinner] at heq
        have h1 := innerLoop_count s n _ _ _ _ _ _ hinner
        have h2 := ih _ _ _ _ _ heq
        omega
    · rw [dif_neg hi] at heq
      cases heq
      exact le_max_left _ _

/-- C6 (amended): a single subsumption sweep (`outerLoop`) never raises the
multiplicity of any sentence in the knowledge list above its value at the
start of the sweep, or above one for sentences absent at the start (derived
sentences are appended only when not already present) — but it does not, in
general, REDUCE every multiplicity to one: see
`duplicate_sentences_survive`. -/
theorem subsumption_sweep_multiplicity_bound (fuel i : ℕ)
    (L : List (ℕ × Sentence)) (nid : ℕ) (L' : List (ℕ × Sentence)) (nid' : ℕ)
    (s : Sentence) (heq : outerLoop fuel i L nid = some (L', nid')) :
    countSentence L' s ≤ max (countSentence L s) 1 :=
  outerLoop_count s fuel i L nid L' nid' heq

/-- Witness for `subsumption_sweep_multiplicity_bound` on a one-sentence
knowledge list. -/
theorem subsumption_sweep_multiplicity_bound_witness :
    countSentence [(0, Sentence.mk ∅ 0)] (Sentence.mk ∅ 0) ≤
      max (countSentence [(0, Sentence.mk ∅ 0)] (Sentence.mk ∅ 0)) 1 :=
  subsumption_sweep_multiplicity_bound 10 0 [(0, Sentence.mk ∅ 0)] 1
    [(0, Sentence.mk ∅ 0)] 1 (Sentence.mk ∅ 0) (by decide)

/-! ## Move selection (C8, C9) -/

theorem randomChoice_mem {l : List Cell} (k : ℕ) (h : l ≠ []) :
    randomChoice l k ∈ l := by
  unfold randomChoice
  have hlen : 0 < l.length := List.length_pos.mpr h
  have hmod : k % l.length < l.length := Nat.mod_lt _ hlen
  rw [List.getD_eq_get _ _ hmod]
  exact List.get_mem _ _ _

/-- C8: `make_safe_move` returns an element of `safes − moves_made` when that
set is non-empty and `None` when it is empty, and leaves the agent state
unchanged in either case. -/
theorem make_safe_move_spec (ai : MinesweeperAI) (k : ℕ) :
    ((ai.safes \ ai.moves_made).Nonempty →
      ∃ c, (ai.make_safe_move k).1 = some c ∧ c ∈ ai.safes ∧ c ∉ ai.moves_made) ∧
    (ai.safes \ ai.moves_made = ∅ → (ai.make_safe_move k).1 = none) ∧
    (ai.make_safe_move k).2 = ai := by
  unfold MinesweeperAI.make_safe_move
  by_cases h : ai.safes \ ai.moves_made = ∅
  · rw [if_pos h]
    refine ⟨fun hne => ?_, fun _ => rfl, rfl⟩
    rw [h] at hne
    exact absurd hne Finset.not_nonempty_empty
  · rw [if_neg h]
    refine ⟨fun hne => ?_, fun he => absurd he h, rfl⟩
    have hnil : cellList (ai.safes \ ai.moves_made) ≠ [] := by
      obtain ⟨c, hc⟩ := hne
      exact List.ne_nil_of_mem (mem_cellList.mpr hc)
    have hmem := mem_cellList.mp (randomChoice_mem k hnil)
    rw [Finset.mem_sdiff] at hmem
    exact ⟨_, rfl, hmem.1, hmem.2⟩

/-- Witness for `make_safe_move_spec` on an agent knowing one unplayed safe
cell. -/
theorem make_safe_move_spec_witness :
    (∃ c, ((MinesweeperAI.mk 2 2 ∅ {(0,0)} ∅ [] 0).make_safe_move 0).1 = some c ∧
      c ∈ ({(0,0)} : Finset Cell) ∧ c ∉ (∅ : Finset Cell)) ∧
    ((MinesweeperAI.mk 2 2 ∅ {(0,0)} ∅ [] 0).make_safe_move 0).2 =
      MinesweeperAI.mk 2 2 ∅ {(0,0)} ∅ [] 0 :=
  ⟨(make_safe_move_spec (MinesweeperAI.mk 2 2 ∅ {(0,0)} ∅ [] 0) 0).1 (by decide),
   (make_safe_move_spec (MinesweeperAI.mk 2 2 ∅ {(0,0)} ∅ [] 0) 0).2.2⟩

theorem mem_gridCells {h w : ℕ} {c : Cell} :
    c ∈ gridCells h w ↔ 0 ≤ c.1 ∧ c.1 < (h : ℤ) ∧ 0 ≤ c.2 ∧ c.2 < (w : ℤ) := by
  unfold gridCells
  constructor
  · intro hc
    obtain ⟨i, hi, hc⟩ := List.mem_flatMap.mp hc
    obtain ⟨j, hj, rfl⟩ := List.mem_map.mp hc
    rw [List.mem_range] at hi hj
    refine ⟨?_, ?_, ?_, ?_⟩
    · show (0 : ℤ) ≤ (i : ℤ)
      exact Int.natCast_nonneg _
    · show ((i : ℤ)) < (h : ℤ)
      exact_mod_cast hi
    · show (0 : ℤ) ≤ (j : ℤ)
      exact Int.natCast_nonneg _
    · show ((j : ℤ)) < (w : ℤ)
      exact_mod_cast hj
  · rintro ⟨h1, h2, h3, h4⟩
    rw [List.mem_flatMap]
    refine ⟨c.1.toNat, ?_, ?_⟩
    · rw [List.mem_range]; omega
    · rw [List.mem_map]
      refine ⟨c.2.toNat, ?_, ?_⟩
      · rw [List.mem_range]; omega
      · have e1 : ((c.1.toNat : ℤ)) = c.1 := by omega
        have e2 : ((c.2.toNat : ℤ)) = c.2 := by omega
        rw [e1, e2]

theorem mem_gridFinset {h w : ℕ} {c : Cell} :
    c ∈ gridFinset h w ↔ 0 ≤ c.1 ∧ c.1 < (h : ℤ) ∧ 0 ≤ c.2 ∧ c.2 < (w : ℤ) := by
  unfold gridFinset
  constructor
  · intro hc
    obtain ⟨p, hp, rfl⟩ := Finset.mem_image.mp hc
    obtain ⟨hp1, hp2⟩ := Finset.mem_product.mp hp
    rw [Finset.mem_range] at hp1 hp2
    refine ⟨?_, ?_, ?_, ?_⟩
    · show (0 : ℤ) ≤ (p.1 : ℤ)
      exact Int.natCast_nonneg _
    · show ((p.1 : ℤ)) < (h : ℤ)
      exact_mod_cast hp1
    · show (0 : ℤ) ≤ (p.2 : ℤ)
      exact Int.natCast_nonneg _
    · show ((p.2 : ℤ)) < (w : ℤ)
      exact_mod_cast hp2
  · rintro ⟨h1, h2, h3, h4⟩
    rw [Finset.mem_image]
    refine ⟨(c.1.toNat, c.2.toNat), ?_, ?_⟩
    · have m1 : c.1.toNat ∈ Finset.range h := by rw [Finset.mem_range]; omega
      have m2 : c.2.toNat ∈ Finset.range w := by rw [Finset.mem_range]; omega
      exact Finset.mem_product.mpr ⟨m1, m2⟩
    · show ((c.1.toNat : ℤ), (c.2.toNat : ℤ)) = c
      have e1 : ((c.1.toNat : ℤ)) = c.1 := by omega
      have e2 : ((c.2.toNat : ℤ)) = c.2 := by omega
      rw [e1, e2]

theorem card_gridFinset (h w : ℕ) : (gridFinset h w).card = h * w := by
  unfold gridFinset
  rw [Finset.card_image_of_injective _ ?_, Finset.card_product,
    Finset.card_range, Finset.card_range]
  intro a b hab
  have hab' : ((a.1 : ℤ), (a.2 : ℤ)) = ((b.1 : ℤ), (b.2 : ℤ)) := hab
  rw [Prod.mk.injEq] at hab'
  rw [Prod.ext_iff]
  exact ⟨by exact_mod_cast hab'.1, by exact_mod_cast hab'.2⟩

/-- C9: under the documented state invariants — `mines` and `moves_made` are
disjoint and lie inside the grid — `make_random_move` returns a grid cell
outside `moves_made ∪ mines` when one exists and `None` otherwise; the
fully-resolved clause `|mines| + |moves_made| = height·width → None` holds
outright; the state is unchanged. -/
theorem make_random_move_spec (ai : MinesweeperAI) (k : ℕ)
    (hd : ∀ c ∈ ai.mines, c ∉ ai.moves_made)
    (hsub : ai.mines ∪ ai.moves_made ⊆ gridFinset ai.height ai.width) :
    ((gridFinset ai.height ai.width \ (ai.moves_made ∪ ai.mines)).Nonempty →
      ∃ c, (ai.make_random_move k).1 = some c ∧
        c ∈ gridFinset ai.height ai.width ∧ c ∉ ai.moves_made ∧ c ∉ ai.mines) ∧
    (gridFinset ai.height ai.width \ (ai.moves_made ∪ ai.mines) = ∅ →
      (ai.make_random_move k).1 = none) ∧
    (ai.mines.card + ai.moves_made.card = ai.height * ai.width →
      (ai.make_random_move k).1 = none) ∧
    (ai.make_random_move k).2 = ai := by
  have hdisj : Disjoint ai.mines ai.moves_made := Finset.disjoint_left.mpr hd
  have hcard : ai.mines.card + ai.moves_made.card = (ai.mines ∪ ai.moves_made).card :=
    (Finset.card_union_of_disjoint hdisj).symm
  have hkey : ai.mines.card + ai.moves_made.card = ai.height * ai.width ↔
      gridFinset ai.height ai.width \ (ai.moves_made ∪ ai.mines) = ∅ := by
    rw [hcard, Finset.sdiff_eq_empty_iff_subset, Finset.union_comm ai.moves_made]
    constructor
    · intro hc
      have : ai.mines ∪ ai.moves_made = gridFinset ai.height ai.width :=
        Finset.eq_of_subset_of_card_le hsub (by rw [card_gridFinset]; omega)
      rw [this]
    · intro hgs
      have : ai.mines ∪ ai.moves_made = gridFinset ai.height ai.width :=
        Finset.Subset.antisymm hsub hgs
      rw [this, card_gridFinset]
  unfold MinesweeperAI.make_random_move
  by_cases hfull : ai.mines.card + ai.moves_made.card = ai.height * ai.width
  · rw [if_pos hfull]
    refine ⟨fun hne => ?_, fun _ => rfl, fun _ => rfl, rfl⟩
    rw [hkey.mp hfull] at hne
    exact absurd hne Finset.not_nonempty_empty
  · rw [if_neg hfull]
    refine ⟨fun hne => ?_, fun he => absurd (hkey.mpr he) hfull, fun he => absurd he hfull, rfl⟩
    dsimp only
    obtain ⟨c0, hc0⟩ := hne
    rw [Finset.mem_sdiff, Finset.mem_union] at hc0
    have hc0l : c0 ∈ (gridCells ai.height ai.width).filter
        (fun c => decide (c ∉ ai.moves_made ∧ c ∉ ai.mines)) := by
      rw [List.mem_filter, decide_eq_true_eq]
      exact ⟨mem_gridCells.mpr (mem_gridFinset.mp hc0.1),
        fun hm => hc0.2 (Or.inl hm), fun hm => hc0.2 (Or.inr hm)⟩
    have hnil : (gridCells ai.height ai.width).filter
        (fun c => decide (c ∉ ai.moves_made ∧ c ∉ ai.mines)) ≠ [] :=
      List.ne_nil_of_mem hc0l
    rw [if_neg hnil]
    have hmem := randomChoice_mem k hnil
    rw [List.mem_filter, decide_eq_true_eq] at hmem
    exact ⟨_, rfl, mem_gridFinset.mpr (mem_gridCells.mp hmem.1), hmem.2.1, hmem.2.2⟩

/-- Witness for `make_random_move_spec` on a 1×2 board with one move made. -/
theorem make_random_move_spec_witness :
    ∃ c, ((MinesweeperAI.mk 1 2 {(0,0)} {(0,0)} ∅ [] 0).make_random_move 0).1 = some c ∧
      c ∈ gridFinset 1 2 ∧ c ∉ ({(0,0)} : Finset Cell) ∧ c ∉ (∅ : Finset Cell) :=
  (make_random_move_spec (MinesweeperAI.mk 1 2 {(0,0)} {(0,0)} ∅ [] 0) 0
    (by decide) (by decide)).1 (by decide)

/-- C10: operations never range-check `count`: `mark_mine` on `{(0,0)} = 0`
silently yields the empty sentence with `count = -1`, and an `add_knowledge`
call on `exC10` appends, via the subsumption rule, the sentence
`{(5,3)} = -1` with a negative count to knowledge. -/
theorem count_can_go_negative :
    (Sentence.mk {(0,0)} 0).mark_mine (0,0) = Sentence.mk ∅ (-1) ∧
    ∃ a', exC10one = some a' ∧ Sentence.mk {(5,3)} (-1) ∈ a'.sentences := by
  refine ⟨by decide, resultOf exC10one, by decide, by decide⟩

end MSW
